import Mathlib

/-!
Shallow embedding of the device liveness registry of
`railway-express-starter-` (`src/server.js`).

The file models the two `server.js` variants found in the repository:

* Variant 1 (lines 37–179): registry records carry
  `status / firstSeen / lastSeen / updatedAt`; a background sweeper demotes
  stale devices to `"offline"`; `GET /api/devices` produces a snapshot;
  `POST /api/command` dispatches `"<device>:<status>"` commands.
* Variant 2 (lines 429–494): records carry `status / updatedAt` only and a
  `MAX_DEVICES` bound evicts the entry with the smallest `updatedAt` whenever
  an insert pushes the registry over the limit.

Timestamps are modelled as `Int` epoch milliseconds.  Variant 1 writes
timestamps with `Date.prototype.toISOString` and reads them back only through
`Date.parse`, a round-trip that is the identity on the valid epoch range, so
its registry operations work on the numbers directly.  Variant 2 additionally
sorts the stored ISO strings lexicographically when evicting; that order
disagrees with numeric order outside years 0000-9999 (expanded-year strings
sort before all plain four-digit years), so the eviction model renders
timestamps with an executable `toIso` (the `toISOString` algorithm) and
compares the rendered strings.  `Date.now()` reads within a single sweeper
tick are modelled by the single parameter `now`.
-/

set_option autoImplicit false

namespace RailwayExpress

/-- One registry record of variant 1 (`server.js` line 38:
`device -> { status, firstSeen, lastSeen, updatedAt }`). -/
structure DeviceRecord where
  status : String
  firstSeen : Int
  lastSeen : Int
  updatedAt : Int
  deriving DecidableEq, Repr

/-- The in-memory device registry: an association list keyed by device name,
in insertion order (JS object string keys enumerate in insertion order). -/
abbrev Registry := List (String × DeviceRecord)

/-- Key lookup in the registry (`deviceStatus[device]`). -/
def lookup (d : String) : Registry → Option DeviceRecord
  | [] => none
  | (n, r) :: rest => if n = d then some r else lookup d rest

/-- Overwrite `status`/`lastSeen`/`updatedAt` of the entry keyed `d`
(`server.js` lines 91–93); other entries and `firstSeen` are untouched. -/
def overwrite (d s : String) (t : Int) : Registry → Registry
  | [] => []
  | (n, r) :: rest =>
      if n = d then
        (n, { r with status := s, lastSeen := t, updatedAt := t }) :: overwrite d s t rest
      else (n, r) :: overwrite d s t rest

/-- `Registry.update` (`server.js` lines 86–94): unknown device gets a fresh
record with all four fields from the event; a known device keeps `firstSeen`
and has `status`, `lastSeen`, `updatedAt` overwritten. -/
def update (d s : String) (t : Int) (reg : Registry) : Registry :=
  match lookup d reg with
  | none => reg ++ [(d, ⟨s, t, t, t⟩)]
  | some _ => overwrite d s t reg

/-- One record of the sweeper pass (`server.js` lines 106–112).  The stored
`lastSeen` is always present and parseable in the model (it is written only by
`toISOString`), so `Date.parse(info.lastSeen || ...)` is just `lastSeen` and
the `isNaN` branch is unreachable. -/
def sweepRecord (now staleThreshold : Int) (r : DeviceRecord) : DeviceRecord :=
  let stale := now - r.lastSeen > staleThreshold
  if stale ∧ r.status ≠ "offline" then
    { r with status := "offline", updatedAt := now }
  else r

/-- `Registry.sweep` (`server.js` lines 103–114): the auto-offline pass over
every record. -/
def sweep (now staleThreshold : Int) : Registry → Registry
  | [] => []
  | (n, r) :: rest => (n, sweepRecord now staleThreshold r) :: sweep now staleThreshold rest

/-- One row of `GET /api/devices` (`server.js` lines 147–149). -/
structure SnapshotItem where
  device : String
  status : String
  updatedAt : Int
  lastSeen : Int
  firstSeen : Int
  deriving DecidableEq, Repr

/-- `Registry.snapshot` (`server.js` lines 146–153): the JSON `items` list. -/
def snapshot : Registry → List SnapshotItem
  | [] => []
  | (n, r) :: rest => ⟨n, r.status, r.updatedAt, r.lastSeen, r.firstSeen⟩ :: snapshot rest

/-- The registry operations a trace may perform (parsed ingest events and
sweeper ticks). -/
inductive Op where
  | upd (device status : String) (ts : Int)
  | swp (now staleThreshold : Int)
  deriving DecidableEq, Repr

/-- Apply one operation to the registry. -/
def applyOp (reg : Registry) : Op → Registry
  | .upd d s t => update d s t reg
  | .swp now th => sweep now th reg

/-- Run a trace of operations left to right. -/
def run (reg : Registry) (ops : List Op) : Registry :=
  ops.foldl applyOp reg

/-- Timestamp of the first update naming device `d` in a trace. -/
def firstUpdTs (d : String) : List Op → Option Int
  | [] => none
  | .upd d2 _ t :: rest => if d2 = d then some t else firstUpdTs d rest
  | .swp _ _ :: rest => firstUpdTs d rest

-- ---------------------------------------------------------------------------
-- Basic lookup lemmas
-- ---------------------------------------------------------------------------

theorem lookup_append (d : String) (l1 l2 : Registry) :
    lookup d (l1 ++ l2) =
      match lookup d l1 with
      | some r => some r
      | none => lookup d l2 := by
  induction l1 with
  | nil => rfl
  | cons p rest ih =>
      obtain ⟨n, r⟩ := p
      by_cases hn : n = d <;> simp [lookup, hn, ih]

theorem lookup_overwrite_self (d s : String) (t : Int) (reg : Registry) :
    lookup d (overwrite d s t reg) =
      (lookup d reg).map
        (fun r => { r with status := s, lastSeen := t, updatedAt := t }) := by
  induction reg with
  | nil => rfl
  | cons p rest ih =>
      obtain ⟨n, r⟩ := p
      by_cases hn : n = d
      · subst hn; simp [overwrite, lookup]
      · simp [overwrite, lookup, hn, ih]

theorem lookup_overwrite_other {d d2 : String} (s : String) (t : Int) (reg : Registry)
    (h : d2 ≠ d) : lookup d2 (overwrite d s t reg) = lookup d2 reg := by
  induction reg with
  | nil => rfl
  | cons p rest ih =>
      obtain ⟨n, r⟩ := p
      by_cases hn : n = d
      · subst hn
        have h2 : ¬(n = d2) := fun hh => h hh.symm
        simp [overwrite, lookup, h2, ih]
      · simp [overwrite, lookup, hn, ih]

theorem lookup_update_new (d s : String) (t : Int) {reg : Registry}
    (h : lookup d reg = none) :
    lookup d (update d s t reg) = some ⟨s, t, t, t⟩ := by
  simp only [update, h]
  rw [lookup_append]
  simp [h, lookup]

theorem lookup_update_known (d s : String) (t : Int) {reg : Registry} {r : DeviceRecord}
    (h : lookup d reg = some r) :
    lookup d (update d s t reg) =
      some { r with status := s, lastSeen := t, updatedAt := t } := by
  simp [update, h, lookup_overwrite_self]

theorem lookup_update_other {d d2 : String} (s : String) (t : Int) (reg : Registry)
    (h : d2 ≠ d) : lookup d2 (update d s t reg) = lookup d2 reg := by
  cases hl : lookup d reg with
  | none =>
      simp only [update, hl]
      rw [lookup_append]
      have h3 : ¬(d = d2) := fun hh => h (Eq.symm hh)
      cases h2 : lookup d2 reg <;> simp [lookup, h, h3]
  | some r =>
      simp only [update, hl]
      exact lookup_overwrite_other s t reg h

theorem lookup_sweep (d : String) (now th : Int) (reg : Registry) :
    lookup d (sweep now th reg) = (lookup d reg).map (sweepRecord now th) := by
  induction reg with
  | nil => rfl
  | cons p rest ih =>
      obtain ⟨n, r⟩ := p
      by_cases hn : n = d
      · subst hn; simp [sweep, lookup]
      · simp [sweep, lookup, hn, ih]

theorem sweepRecord_firstSeen (now th : Int) (r : DeviceRecord) :
    (sweepRecord now th r).firstSeen = r.firstSeen := by
  by_cases h : now - r.lastSeen > th ∧ r.status ≠ "offline" <;> simp [sweepRecord, h]

theorem sweepRecord_lastSeen (now th : Int) (r : DeviceRecord) :
    (sweepRecord now th r).lastSeen = r.lastSeen := by
  by_cases h : now - r.lastSeen > th ∧ r.status ≠ "offline" <;> simp [sweepRecord, h]

theorem mem_snapshot_of_lookup {d : String} {r : DeviceRecord} {reg : Registry}
    (h : lookup d reg = some r) :
    (⟨d, r.status, r.updatedAt, r.lastSeen, r.firstSeen⟩ : SnapshotItem) ∈ snapshot reg := by
  induction reg with
  | nil => simp [lookup] at h
  | cons p rest ih =>
      obtain ⟨n, r2⟩ := p
      by_cases hn : n = d
      · subst hn
        simp [lookup] at h
        subst h
        simp [snapshot]
      · simp only [lookup, if_neg hn] at h
        simp [snapshot, ih h]

theorem lookup_applyOp_preserve (reg : Registry) (op : Op) {d : String} {r : DeviceRecord}
    (h : lookup d reg = some r) :
    ∃ r2, lookup d (applyOp reg op) = some r2 ∧ r2.firstSeen = r.firstSeen := by
  cases op with
  | upd d2 s t =>
      by_cases hd : d = d2
      · subst hd
        exact ⟨_, lookup_update_known d s t h, rfl⟩
      · refine ⟨r, ?_, rfl⟩
        simpa [applyOp, lookup_update_other s t reg hd] using h
  | swp now th =>
      exact ⟨_, by simp [applyOp, lookup_sweep, h], sweepRecord_firstSeen now th r⟩

theorem lookup_run_preserve (ops : List Op) :
    ∀ (reg : Registry) {d : String} {r : DeviceRecord}, lookup d reg = some r →
      ∃ r2, lookup d (run reg ops) = some r2 ∧ r2.firstSeen = r.firstSeen := by
  induction ops with
  | nil => exact fun reg _ r h => ⟨r, h, rfl⟩
  | cons op rest ih =>
      intro reg d r h
      obtain ⟨r1, h1, e1⟩ := lookup_applyOp_preserve reg op h
      obtain ⟨r2, h2, e2⟩ := ih (applyOp reg op) h1
      exact ⟨r2, h2, e2.trans e1⟩

theorem firstUpdTs_run (ops : List Op) :
    ∀ (reg : Registry) {d : String} {r : DeviceRecord},
      lookup d reg = none → lookup d (run reg ops) = some r →
      firstUpdTs d ops = some r.firstSeen := by
  induction ops with
  | nil =>
      intro reg d r h0 h1
      rw [run, List.foldl_nil] at h1
      rw [h0] at h1
      exact absurd h1 (by simp)
  | cons op rest ih =>
      intro reg d r h0 h1
      have hrun : run reg (op :: rest) = run (applyOp reg op) rest := by
        simp [run]
      rw [hrun] at h1
      cases op with
      | upd d2 s t =>
          by_cases hd : d2 = d
          · subst hd
            have hnew : lookup d2 (applyOp reg (Op.upd d2 s t)) = some ⟨s, t, t, t⟩ :=
              lookup_update_new d2 s t h0
            obtain ⟨r2, h2, e2⟩ := lookup_run_preserve rest _ hnew
            rw [h2] at h1
            cases h1
            simp [firstUpdTs, e2]
          · have hkeep : lookup d (applyOp reg (Op.upd d2 s t)) = none := by
              simpa [applyOp, lookup_update_other s t reg (fun hh => hd hh.symm)] using h0
            simpa [firstUpdTs, hd] using ih _ hkeep h1
      | swp now th =>
          have hkeep : lookup d (applyOp reg (Op.swp now th)) = none := by
            simp [applyOp, lookup_sweep, h0]
          simpa [firstUpdTs] using ih _ hkeep h1

-- ---------------------------------------------------------------------------
-- Claim C1
-- ---------------------------------------------------------------------------

/-- Claim C1: `update(device, status, timestamp)` creates a record whose
`status` is the given status and whose `firstSeen`, `lastSeen`, `updatedAt`
all equal the given timestamp when the device is unknown; for a known device
it sets `status`, `lastSeen`, `updatedAt` to the new values and keeps
`firstSeen`.  A snapshot taken immediately after shows exactly those values,
and in any trace of update/sweep operations from the empty registry a
device's `firstSeen` equals the timestamp of its first-ever update. -/
theorem update_then_snapshot_c1 (reg : Registry) (d s : String) (t : Int) :
    (lookup d reg = none →
        lookup d (update d s t reg) = some ⟨s, t, t, t⟩ ∧
        (⟨d, s, t, t, t⟩ : SnapshotItem) ∈ snapshot (update d s t reg)) ∧
    (∀ r, lookup d reg = some r →
        lookup d (update d s t reg) = some ⟨s, r.firstSeen, t, t⟩ ∧
        (⟨d, s, t, t, r.firstSeen⟩ : SnapshotItem) ∈ snapshot (update d s t reg)) ∧
    (∀ (ops : List Op) (r2 : DeviceRecord), lookup d (run [] ops) = some r2 →
        firstUpdTs d ops = some r2.firstSeen) := by
  refine ⟨?_, ?_, ?_⟩
  · intro h
    have h1 := lookup_update_new d s t h
    exact ⟨h1, mem_snapshot_of_lookup h1⟩
  · intro r h
    have h1 := lookup_update_known d s t h
    exact ⟨h1, mem_snapshot_of_lookup h1⟩
  · intro ops r2 h
    exact firstUpdTs_run ops [] rfl h

/-- Witness for C1: a concrete two-update trace of device `"Dev-1"`. -/
theorem update_then_snapshot_c1_witness :
    lookup "Dev-1" (update "Dev-1" "off" 2000 (update "Dev-1" "online" 1000 [])) =
        some ⟨"off", 1000, 2000, 2000⟩ ∧
    (⟨"Dev-1", "off", 2000, 2000, 1000⟩ : SnapshotItem) ∈
        snapshot (update "Dev-1" "off" 2000 (update "Dev-1" "online" 1000 [])) ∧
    firstUpdTs "Dev-1" [Op.upd "Dev-1" "online" 1000, Op.upd "Dev-1" "off" 2000] =
        some 1000 := by
  have h := update_then_snapshot_c1 (update "Dev-1" "online" 1000 []) "Dev-1" "off" 2000
  have hk : lookup "Dev-1" (update "Dev-1" "online" 1000 []) =
      some ⟨"online", 1000, 1000, 1000⟩ := by decide
  obtain ⟨h1, h2⟩ := h.2.1 ⟨"online", 1000, 1000, 1000⟩ hk
  refine ⟨h1, h2, ?_⟩
  have h3 := h.2.2 [Op.upd "Dev-1" "online" 1000, Op.upd "Dev-1" "off" 2000]
      ⟨"off", 1000, 2000, 2000⟩ (by decide)
  simpa using h3

-- ---------------------------------------------------------------------------
-- Claim C2
-- ---------------------------------------------------------------------------

/-- Claim C2: one sweep pass demotes exactly the records with
`status ≠ "offline"` and `now - lastSeen > staleThreshold`, setting
`status := "offline"` and `updatedAt := now`; `lastSeen` is untouched on every
record, already-offline records are not modified, and no record is added or
removed.  In particular a record `"online"` last seen 31 s ago is demoted with
threshold 30000 ms. -/
theorem sweep_pass_c2 (now th : Int) (reg : Registry) :
    (∀ d r, lookup d reg = some r →
        lookup d (sweep now th reg) =
          some (if now - r.lastSeen > th ∧ r.status ≠ "offline" then
                  { r with status := "offline", updatedAt := now }
                else r)) ∧
    (∀ r : DeviceRecord, (sweepRecord now th r).lastSeen = r.lastSeen) ∧
    (∀ d r, lookup d reg = some r → r.status = "offline" →
        lookup d (sweep now th reg) = some r) ∧
    (∀ d, lookup d (sweep now th reg) = none ↔ lookup d reg = none) ∧
    (∀ t0 : Int, sweep (t0 + 31000) 30000 [("dev", ⟨"online", t0, t0, t0⟩)] =
        [("dev", ⟨"offline", t0, t0, t0 + 31000⟩)]) := by
  refine ⟨?_, sweepRecord_lastSeen now th, ?_, ?_, ?_⟩
  · intro d r h
    rw [lookup_sweep, h]
    simp [sweepRecord]
  · intro d r h hoff
    rw [lookup_sweep, h]
    simp [sweepRecord, hoff]
  · intro d
    rw [lookup_sweep]
    cases h : lookup d reg <;> simp
  · intro t0
    have hc : t0 + 31000 - t0 > (30000 : Int) := by omega
    simp [sweep, sweepRecord, hc]

/-- Witness for C2: a device with `lastSeen = 0` swept at `now = 31000` with
threshold 30000 is demoted; `lastSeen` stays, `updatedAt` becomes 31000. -/
theorem sweep_pass_c2_witness :
    lookup "dev" (sweep 31000 30000 [("dev", ⟨"online", 0, 0, 0⟩)]) =
      some ⟨"offline", 0, 0, 31000⟩ := by
  have h := (sweep_pass_c2 31000 30000 [("dev", ⟨"online", 0, 0, 0⟩)]).1 "dev"
      ⟨"online", 0, 0, 0⟩ (by decide)
  simpa using h

-- ---------------------------------------------------------------------------
-- Claim C6
-- ---------------------------------------------------------------------------

theorem sweepRecord_offline {now th : Int} {r : DeviceRecord}
    (h : r.status = "offline") : sweepRecord now th r = r := by
  simp [sweepRecord, h]

theorem sweepRecord_idem (now th : Int) (r : DeviceRecord) :
    sweepRecord now th (sweepRecord now th r) = sweepRecord now th r := by
  by_cases h : now - r.lastSeen > th ∧ r.status ≠ "offline"
  · have h1 : sweepRecord now th r = { r with status := "offline", updatedAt := now } := by
      simp [sweepRecord, h]
    rw [h1]
    exact sweepRecord_offline rfl
  · have h1 : sweepRecord now th r = r := by simp [sweepRecord, h]
    rw [h1, h1]

/-- Counterexample to C6 as stated: with threshold 30000, a device with
`lastSeen = 0` is not yet stale at `now = 30000` but is stale at
`now = 30001`, so a second sweep at the later time changes the state. -/
theorem sweep_twice_later_c6_counterexample :
    sweep 30001 30000 (sweep 30000 30000 [("d", ⟨"online", 0, 0, 0⟩)]) ≠
      sweep 30000 30000 [("d", ⟨"online", 0, 0, 0⟩)] := by
  decide

/-- Claim C6 (amended): sweeping twice with the same current time is a no-op
for the second pass, and any record that is `"offline"` after the first sweep
(in particular one the first sweep demoted) is not modified by a second sweep
even at a later current time. -/
theorem sweep_idempotent_c6 (now th : Int) (reg : Registry) :
    sweep now th (sweep now th reg) = sweep now th reg ∧
    (∀ (now2 : Int) (d : String) (r : DeviceRecord),
        lookup d (sweep now th reg) = some r → r.status = "offline" →
        lookup d (sweep now2 th (sweep now th reg)) = some r) := by
  constructor
  · induction reg with
    | nil => rfl
    | cons p rest ih =>
        obtain ⟨n, r⟩ := p
        simp [sweep, sweepRecord_idem, ih]
  · intro now2 d r h hoff
    rw [lookup_sweep, h]
    simp [sweepRecord_offline hoff]

/-- Witness for C6 (amended) at a two-device registry: one device demoted at
`now = 40000`, the demoted record untouched by a second sweep at 50000. -/
theorem sweep_idempotent_c6_witness :
    sweep 40000 30000 (sweep 40000 30000
        [("a", ⟨"online", 0, 0, 0⟩), ("b", ⟨"online", 20000, 20000, 20000⟩)]) =
      sweep 40000 30000
        [("a", ⟨"online", 0, 0, 0⟩), ("b", ⟨"online", 20000, 20000, 20000⟩)] ∧
    lookup "a" (sweep 50000 30000 (sweep 40000 30000
        [("a", ⟨"online", 0, 0, 0⟩), ("b", ⟨"online", 20000, 20000, 20000⟩)])) =
      some ⟨"offline", 0, 0, 40000⟩ := by
  have h := sweep_idempotent_c6 40000 30000
      [("a", ⟨"online", 0, 0, 0⟩), ("b", ⟨"online", 20000, 20000, 20000⟩)]
  exact ⟨h.1, h.2 50000 "a" ⟨"offline", 0, 0, 40000⟩ (by decide) rfl⟩

-- ---------------------------------------------------------------------------
-- Claim C3
-- ---------------------------------------------------------------------------

/-- The spec's record invariant: `firstSeen <= lastSeen` and
`firstSeen <= updatedAt` for every stored record. -/
def Invariant (reg : Registry) : Prop :=
  ∀ q ∈ reg, q.2.firstSeen ≤ q.2.lastSeen ∧ q.2.firstSeen ≤ q.2.updatedAt

/-- Side condition on a single operation relative to the current state:
an update's timestamp is not before the stored `firstSeen` of its device, and
a sweep's threshold is non-negative. -/
def OkOp (reg : Registry) : Op → Prop
  | .upd d _ t => ∀ q ∈ reg, q.1 = d → q.2.firstSeen ≤ t
  | .swp _ th => 0 ≤ th

/-- A trace all of whose operations satisfy `OkOp` in the state where they
execute. -/
def ValidOps : Registry → List Op → Prop
  | _, [] => True
  | reg, op :: rest => OkOp reg op ∧ ValidOps (applyOp reg op) rest

theorem invariant_overwrite {d : String} (s : String) (t : Int) {reg : Registry}
    (hinv : Invariant reg)
    (hts : ∀ q ∈ reg, q.1 = d → q.2.firstSeen ≤ t) :
    Invariant (overwrite d s t reg) := by
  induction reg with
  | nil => intro q hq; simp [overwrite] at hq
  | cons p rest ih =>
      obtain ⟨n, r⟩ := p
      have hinvr : Invariant rest := fun q hq => hinv q (List.mem_cons_of_mem _ hq)
      have htsr : ∀ q ∈ rest, q.1 = d → q.2.firstSeen ≤ t :=
        fun q hq => hts q (List.mem_cons_of_mem _ hq)
      intro q hq
      by_cases hn : n = d
      · rw [overwrite, if_pos hn] at hq
        rcases List.mem_cons.mp hq with hq | hq
        · subst hq
          have h1 := hts (n, r) (List.mem_cons_self _ _) hn
          exact ⟨h1, h1⟩
        · exact ih hinvr htsr q hq
      · rw [overwrite, if_neg hn] at hq
        rcases List.mem_cons.mp hq with hq | hq
        · subst hq
          exact hinv (n, r) (List.mem_cons_self _ _)
        · exact ih hinvr htsr q hq

theorem invariant_update {d : String} (s : String) (t : Int) {reg : Registry}
    (hinv : Invariant reg)
    (hts : ∀ q ∈ reg, q.1 = d → q.2.firstSeen ≤ t) :
    Invariant (update d s t reg) := by
  cases hl : lookup d reg with
  | none =>
      simp only [update, hl]
      intro q hq
      rcases List.mem_append.mp hq with hq | hq
      · exact hinv q hq
      · simp at hq
        subst hq
        exact ⟨le_refl t, le_refl t⟩
  | some r =>
      simp only [update, hl]
      exact invariant_overwrite s t hinv hts

theorem invariant_sweep (now : Int) {th : Int} (hth : 0 ≤ th) {reg : Registry}
    (hinv : Invariant reg) : Invariant (sweep now th reg) := by
  induction reg with
  | nil => intro q hq; simp [sweep] at hq
  | cons p rest ih =>
      obtain ⟨n, r⟩ := p
      have hinvr : Invariant rest := fun q hq => hinv q (List.mem_cons_of_mem _ hq)
      intro q hq
      rw [sweep] at hq
      rcases List.mem_cons.mp hq with hq | hq
      · subst hq
        have h1 : r.firstSeen ≤ r.lastSeen ∧ r.firstSeen ≤ r.updatedAt :=
          hinv (n, r) (List.mem_cons_self _ _)
        by_cases hc : now - r.lastSeen > th ∧ r.status ≠ "offline"
        · have h2 : sweepRecord now th r = { r with status := "offline", updatedAt := now } := by
            simp [sweepRecord, hc]
          rw [h2]
          refine ⟨h1.1, ?_⟩
          have h3 := hc.1
          have h4 := h1.1
          show r.firstSeen ≤ now
          omega
        · have h2 : sweepRecord now th r = r := by simp [sweepRecord, hc]
          rw [h2]; exact h1
      · exact ih hinvr q hq

/-- Counterexample to C3 as stated: two updates for the same device with a
decreasing device-supplied timestamp (1000 then 5) leave a record with
`firstSeen = 1000 > lastSeen = 5`. -/
theorem registry_invariant_c3_counterexample :
    ¬ Invariant (run [] [Op.upd "d" "online" 1000, Op.upd "d" "online" 5]) := by
  intro h
  have h1 := h ("d", ⟨"online", 1000, 5, 5⟩) (by decide)
  exact absurd h1.1 (by decide)

/-- Claim C3 (amended): in every state reached by a trace of update and sweep
operations in which each update's timestamp is not before the stored
`firstSeen` of its device and each sweep threshold is non-negative, every
record satisfies `firstSeen <= lastSeen` and `firstSeen <= updatedAt`.
(Arbitrary device-supplied timestamps break the invariant, as the
counterexample shows.) -/
theorem registry_invariant_c3 :
    ∀ (ops : List Op) (reg : Registry),
      Invariant reg → ValidOps reg ops → Invariant (run reg ops) := by
  intro ops
  induction ops with
  | nil => intro reg hinv _; exact hinv
  | cons op rest ih =>
      intro reg hinv hval
      obtain ⟨hok, hvr⟩ := hval
      have hstep : Invariant (applyOp reg op) := by
        cases op with
        | upd d s t => exact invariant_update s t hinv hok
        | swp now th => exact invariant_sweep now hok hinv
      have : run reg (op :: rest) = run (applyOp reg op) rest := by simp [run]
      rw [this]
      exact ih (applyOp reg op) hstep hvr

/-- Witness for C3 (amended) on a concrete valid trace: create a device at
1000, update it at 2000, then sweep at 40000 with threshold 30000. -/
theorem registry_invariant_c3_witness :
    ValidOps [] [Op.upd "d" "online" 1000, Op.upd "d" "online" 2000,
                 Op.swp 40000 30000] ∧
    Invariant (run [] [Op.upd "d" "online" 1000, Op.upd "d" "online" 2000,
                       Op.swp 40000 30000]) := by
  have hinv : Invariant ([] : Registry) := by
    intro q hq; simp at hq
  have hok1 : OkOp [] (Op.upd "d" "online" 1000) := by
    intro q hq; simp at hq
  have hok2 : OkOp (applyOp [] (Op.upd "d" "online" 1000))
      (Op.upd "d" "online" 2000) := by
    intro q hq hqd
    have hq2 : q ∈ ([("d", (⟨"online", 1000, 1000, 1000⟩ : DeviceRecord))] : Registry) := hq
    simp at hq2
    subst hq2
    decide
  have hok3 : OkOp (applyOp (applyOp [] (Op.upd "d" "online" 1000))
      (Op.upd "d" "online" 2000)) (Op.swp 40000 30000) := by
    show (0 : Int) ≤ 30000
    norm_num
  have hval : ValidOps [] [Op.upd "d" "online" 1000, Op.upd "d" "online" 2000,
      Op.swp 40000 30000] := ⟨hok1, hok2, hok3, trivial⟩
  exact ⟨hval, registry_invariant_c3 _ [] hinv hval⟩

-- ---------------------------------------------------------------------------
-- ISO-8601 timestamp rendering and its lexicographic order
-- (`Date.prototype.toISOString`; needed because variant 2 sorts the stored
-- ISO strings, `server.js` lines 484-486)
-- ---------------------------------------------------------------------------

/-- JS string `<`: lexicographic comparison of UTF-16 code units. -/
def lexLt : List Char → List Char → Bool
  | [], [] => false
  | [], _ :: _ => true
  | _ :: _, [] => false
  | a :: as, b :: bs =>
      if a.toNat < b.toNat then true
      else if b.toNat < a.toNat then false
      else lexLt as bs

theorem char_toNat_inj {a b : Char} (h : a.toNat = b.toNat) : a = b := by
  have h2 : Char.ofNat a.toNat = Char.ofNat b.toNat := by rw [h]
  rwa [Char.ofNat_toNat, Char.ofNat_toNat] at h2

theorem lexLt_irrefl : ∀ l : List Char, lexLt l l = false := by
  intro l
  induction l with
  | nil => rfl
  | cons a as ih => simp [lexLt, ih]

theorem lexLt_asymm : ∀ a b : List Char, lexLt a b = true → lexLt b a = false := by
  intro a
  induction a with
  | nil => intro b _; cases b <;> simp [lexLt]
  | cons x as ih =>
      intro b h
      cases b with
      | nil => simp [lexLt] at h
      | cons y bs =>
          simp only [lexLt] at h ⊢
          by_cases h1 : x.toNat < y.toNat
          · have h2 : ¬ y.toNat < x.toNat := by omega
            simp [h1, h2]
          · by_cases h2 : y.toNat < x.toNat
            · simp [h1, h2] at h
            · simp [h1, h2] at h ⊢
              exact ih bs h

theorem lexLt_trans : ∀ a b c : List Char,
    lexLt a b = true → lexLt b c = true → lexLt a c = true := by
  intro a
  induction a with
  | nil =>
      intro b c hab hbc
      cases b with
      | nil => simp [lexLt] at hab
      | cons y bs =>
          cases c with
          | nil => simp [lexLt] at hbc
          | cons z cs => simp [lexLt]
  | cons x as ih =>
      intro b c hab hbc
      cases b with
      | nil => simp [lexLt] at hab
      | cons y bs =>
          cases c with
          | nil => simp [lexLt] at hbc
          | cons z cs =>
              simp only [lexLt] at hab hbc ⊢
              by_cases h1 : x.toNat < y.toNat
              · by_cases h2 : y.toNat < z.toNat
                · have h3 : x.toNat < z.toNat := Nat.lt_trans h1 h2
                  simp [h3]
                · by_cases h3 : z.toNat < y.toNat
                  · simp [h2, h3] at hbc
                  · have h4 : x.toNat < z.toNat := by omega
                    simp [h4]
              · by_cases h3 : y.toNat < x.toNat
                · simp [h1, h3] at hab
                · simp [h1, h3] at hab
                  by_cases h2 : y.toNat < z.toNat
                  · have h4 : x.toNat < z.toNat := by omega
                    simp [h4]
                  · by_cases h4 : z.toNat < y.toNat
                    · simp [h2, h4] at hbc
                    · simp [h2, h4] at hbc
                      have h5 : ¬ x.toNat < z.toNat := by omega
                      have h6 : ¬ z.toNat < x.toNat := by omega
                      simp [h5, h6]
                      exact ih bs cs hab hbc

theorem lexLt_connex : ∀ a b : List Char,
    lexLt a b = false → lexLt b a = false → a = b := by
  intro a
  induction a with
  | nil =>
      intro b h1 _
      cases b with
      | nil => rfl
      | cons y bs => simp [lexLt] at h1
  | cons x as ih =>
      intro b h1 h2
      cases b with
      | nil => simp [lexLt] at h2
      | cons y bs =>
          simp only [lexLt] at h1 h2
          by_cases hx : x.toNat < y.toNat
          · simp [hx] at h1
          · by_cases hy : y.toNat < x.toNat
            · simp [hx, hy] at h2
            · have he : x = y := char_toNat_inj (by omega)
              simp [hx, hy] at h1 h2
              rw [he, ih bs h1 h2]

theorem lexLt_cons_same (c : Char) (s1 s2 : List Char) :
    lexLt (c :: s1) (c :: s2) = lexLt s1 s2 := by
  simp [lexLt]

theorem lexLt_append : ∀ (p1 p2 s1 s2 : List Char), p1.length = p2.length →
    lexLt (p1 ++ s1) (p2 ++ s2) =
      (if p1 = p2 then lexLt s1 s2 else lexLt p1 p2) := by
  intro p1
  induction p1 with
  | nil =>
      intro p2 s1 s2 hl
      cases p2 with
      | nil => simp
      | cons y bs => simp at hl
  | cons x as ih =>
      intro p2 s1 s2 hl
      cases p2 with
      | nil => simp at hl
      | cons y bs =>
          simp only [List.length_cons] at hl
          by_cases hx : x.toNat < y.toNat
          · have hne : x ≠ y := by intro hh; subst hh; omega
            simp [lexLt, hx, hne]
          · by_cases hy : y.toNat < x.toNat
            · have hne : x ≠ y := by intro hh; subst hh; omega
              simp [lexLt, hx, hy, hne]
            · have he : x = y := char_toNat_inj (by omega)
              subst he
              simp only [List.cons_append, lexLt_cons_same]
              rw [ih bs s1 s2 (by omega)]
              by_cases hp : as = bs <;> simp [hp, lexLt_cons_same]

/-- Zero-padded width-`w` decimal rendering of `n` (valid for `n < 10^w`). -/
def padNat : Nat → Nat → List Char
  | 0, _ => []
  | w + 1, n => padNat w (n / 10) ++ [Nat.digitChar (n % 10)]

theorem padNat_length : ∀ (w n : Nat), (padNat w n).length = w := by
  intro w
  induction w with
  | zero => intro n; rfl
  | succ w ih => intro n; simp [padNat, ih]

theorem digitChar_toNat_lt_iff :
    ∀ r1 : Nat, r1 < 10 → ∀ r2 : Nat, r2 < 10 →
      ((Nat.digitChar r1).toNat < (Nat.digitChar r2).toNat ↔ r1 < r2) := by
  decide

theorem digitChar_inj :
    ∀ r1 : Nat, r1 < 10 → ∀ r2 : Nat, r2 < 10 →
      Nat.digitChar r1 = Nat.digitChar r2 → r1 = r2 := by
  decide

theorem padNat_inj : ∀ (w n1 n2 : Nat), n1 < 10 ^ w → n2 < 10 ^ w →
    padNat w n1 = padNat w n2 → n1 = n2 := by
  intro w
  induction w with
  | zero => intro n1 n2 h1 h2 _; omega
  | succ w ih =>
      intro n1 n2 h1 h2 he
      simp only [padNat] at he
      have hl := List.append_inj he (by simp [padNat_length])
      obtain ⟨hq, hr⟩ := hl
      have hq2 : n1 / 10 = n2 / 10 :=
        ih _ _ (by omega) (by omega) hq
      have hr2 : n1 % 10 = n2 % 10 := by
        have := digitChar_inj (n1 % 10) (by omega) (n2 % 10) (by omega)
          (by simpa using hr)
        exact this
      omega

theorem padNat_lt_iff : ∀ (w n1 n2 : Nat), n1 < 10 ^ w → n2 < 10 ^ w →
    (lexLt (padNat w n1) (padNat w n2) = true ↔ n1 < n2) := by
  intro w
  induction w with
  | zero =>
      intro n1 n2 h1 h2
      simp [padNat, lexLt]
      omega
  | succ w ih =>
      intro n1 n2 h1 h2
      simp only [padNat]
      rw [lexLt_append _ _ _ _ (by simp [padNat_length])]
      by_cases hp : padNat w (n1 / 10) = padNat w (n2 / 10)
      · have hq : n1 / 10 = n2 / 10 :=
          padNat_inj w _ _ (by omega) (by omega) hp
        rw [if_pos hp]
        have hd := digitChar_toNat_lt_iff (n1 % 10) (by omega) (n2 % 10) (by omega)
        constructor
        · intro hlt
          simp only [lexLt] at hlt
          by_cases hc : (Nat.digitChar (n1 % 10)).toNat < (Nat.digitChar (n2 % 10)).toNat
          · have := hd.mp hc
            omega
          · by_cases hc2 : (Nat.digitChar (n2 % 10)).toNat < (Nat.digitChar (n1 % 10)).toNat
            · simp [hc, hc2] at hlt
            · simp [hc, hc2, lexLt] at hlt
        · intro hlt
          have hr : n1 % 10 < n2 % 10 := by omega
          have hc := hd.mpr hr
          simp [lexLt, hc]
      · rw [if_neg hp]
        have hq : n1 / 10 ≠ n2 / 10 := fun hh => hp (by rw [hh])
        have := ih (n1 / 10) (n2 / 10) (by omega) (by omega)
        rw [this]
        omega



def dysT (y : Int) : Int := 365 * y + y / 4 - y / 100 + y / 400

theorem dysT_mono {a b : Int} (h : a ≤ b) : dysT a ≤ dysT b := by
  simp only [dysT]; omega

theorem dysT_gap (y : Int) : dysT (y + 1) - dysT y ≤ 366 := by
  simp only [dysT]; omega

theorem dysT_zero : dysT 0 = 0 := by decide
theorem dysT_top : dysT 400 = 146097 := by decide

def yoeSearch : Nat → Int → Int
  | 0, _ => 0
  | k + 1, doe => if dysT ((k : Int) + 1) ≤ doe then (k : Int) + 1 else yoeSearch k doe

theorem yoeSearch_spec : ∀ (k : Nat) (doe : Int), 0 ≤ doe →
    doe < dysT ((k : Int) + 1) →
    dysT (yoeSearch k doe) ≤ doe ∧ doe < dysT (yoeSearch k doe + 1) ∧
      0 ≤ yoeSearch k doe ∧ yoeSearch k doe ≤ (k : Int) := by
  intro k
  induction k with
  | zero =>
      intro doe h0 h1
      refine ⟨?_, ?_, le_refl 0, le_refl 0⟩
      · rw [yoeSearch, dysT_zero]; exact h0
      · rw [yoeSearch]; simpa using h1
  | succ k ih =>
      intro doe h0 h1
      by_cases hk : dysT ((k : Int) + 1) ≤ doe
      · have he : yoeSearch (k + 1) doe = (k : Int) + 1 := by simp [yoeSearch, hk]
        rw [he]
        refine ⟨hk, ?_, by omega, by push_cast; omega⟩
        have hc : ((k + 1 : Nat) : Int) + 1 = ((k : Int) + 1) + 1 := by push_cast; ring
        rw [hc] at h1
        exact h1
      · have he : yoeSearch (k + 1) doe = yoeSearch k doe := by simp [yoeSearch, hk]
        rw [he]
        obtain ⟨a, b, c, d⟩ := ih doe h0 (by omega)
        exact ⟨a, b, c, by omega⟩

def monthStart (mp : Int) : Int := (153 * mp + 2) / 5

theorem monthStart_mono {a b : Int} (h : a ≤ b) : monthStart a ≤ monthStart b := by
  simp only [monthStart]; omega

theorem monthStart_gap (mp : Int) : monthStart (mp + 1) - monthStart mp ≤ 31 := by
  simp only [monthStart]; omega

theorem monthStart_zero : monthStart 0 = 0 := by decide
theorem monthStart_top : monthStart 12 = 367 := by decide

def monthSearch : Nat → Int → Int
  | 0, _ => 0
  | k + 1, doy => if monthStart ((k : Int) + 1) ≤ doy then (k : Int) + 1 else monthSearch k doy

theorem monthSearch_spec : ∀ (k : Nat) (doy : Int), 0 ≤ doy →
    doy < monthStart ((k : Int) + 1) →
    monthStart (monthSearch k doy) ≤ doy ∧ doy < monthStart (monthSearch k doy + 1) ∧
      0 ≤ monthSearch k doy ∧ monthSearch k doy ≤ (k : Int) := by
  intro k
  induction k with
  | zero =>
      intro doy h0 h1
      refine ⟨?_, ?_, le_refl 0, le_refl 0⟩
      · rw [monthSearch, monthStart_zero]; exact h0
      · rw [monthSearch]; simpa using h1
  | succ k ih =>
      intro doy h0 h1
      by_cases hk : monthStart ((k : Int) + 1) ≤ doy
      · have he : monthSearch (k + 1) doy = (k : Int) + 1 := by simp [monthSearch, hk]
        rw [he]
        refine ⟨hk, ?_, by omega, by push_cast; omega⟩
        have hc : ((k + 1 : Nat) : Int) + 1 = ((k : Int) + 1) + 1 := by push_cast; ring
        rw [hc] at h1
        exact h1
      · have he : monthSearch (k + 1) doy = monthSearch k doy := by simp [monthSearch, hk]
        rw [he]
        obtain ⟨a, b, c, d⟩ := ih doy h0 (by omega)
        exact ⟨a, b, c, by omega⟩

def dateOf (days : Int) : Int × Int × Int :=
  let z := days + 719468
  let era := z / 146097
  let doe := z - era * 146097
  let yoe := yoeSearch 399 doe
  let doy := doe - dysT yoe
  let mp := monthSearch 11 doy
  (yoe + era * 400 + (if mp < 10 then 0 else 1),
   mp + (if mp < 10 then 3 else -9),
   doy - monthStart mp + 1)

theorem dateOf_spec (days : Int) :
    ∃ era doe yoe doy mp,
      days + 719468 = era * 146097 + doe ∧ 0 ≤ doe ∧ doe < 146097 ∧
      dysT yoe ≤ doe ∧ doe < dysT (yoe + 1) ∧ 0 ≤ yoe ∧ yoe ≤ 399 ∧
      doy = doe - dysT yoe ∧ 0 ≤ doy ∧ doy ≤ 365 ∧
      monthStart mp ≤ doy ∧ doy < monthStart (mp + 1) ∧ 0 ≤ mp ∧ mp ≤ 11 ∧
      dateOf days = (yoe + era * 400 + (if mp < 10 then 0 else 1),
                     mp + (if mp < 10 then 3 else -9),
                     doy - monthStart mp + 1) := by
  set z := days + 719468 with hz
  set era := z / 146097 with hera
  set doe := z - era * 146097 with hdoe
  have hdoe1 : 0 ≤ doe ∧ doe < 146097 := by rw [hdoe, hera]; omega
  have hy := yoeSearch_spec 399 doe hdoe1.1
    (by rw [show ((399 : Nat) : Int) + 1 = 400 by norm_num, dysT_top]; exact hdoe1.2)
  set yoe := yoeSearch 399 doe with hyoe
  set doy := doe - dysT yoe with hdoy
  have hdoy1 : 0 ≤ doy ∧ doy ≤ 365 := by
    constructor
    · rw [hdoy]; omega
    · have hg := dysT_gap yoe
      rw [hdoy]; omega
  have hm := monthSearch_spec 11 doy hdoy1.1
    (by rw [show ((11 : Nat) : Int) + 1 = 12 by norm_num, monthStart_top]; omega)
  set mp := monthSearch 11 doy with hmp
  refine ⟨era, doe, yoe, doy, mp, by rw [hdoe]; ring, hdoe1.1, hdoe1.2,
    hy.1, hy.2.1, hy.2.2.1, by have := hy.2.2.2; norm_num at this; exact this,
    rfl, hdoy1.1, hdoy1.2,
    hm.1, hm.2.1, ?_⟩
  refine ⟨hm.2.2.1, by have := hm.2.2.2; norm_num at this; exact this, rfl⟩

theorem dateOf_mono {d1 d2 : Int} (h : d1 < d2) :
    ∀ {a1 b1 c1 a2 b2 c2 : Int},
      dateOf d1 = (a1, b1, c1) → dateOf d2 = (a2, b2, c2) →
      a1 < a2 ∨ (a1 = a2 ∧ (b1 < b2 ∨ (b1 = b2 ∧ c1 < c2))) := by
  obtain ⟨e1, o1, y1, g1, p1, q1, o1a, o1b, y1a, y1b, y1c, y1d, g1e, g1a, g1b,
    p1a, p1b, p1c, p1d, heq1⟩ := dateOf_spec d1
  obtain ⟨e2, o2, y2, g2, p2, q2, o2a, o2b, y2a, y2b, y2c, y2d, g2e, g2a, g2b,
    p2a, p2b, p2c, p2d, heq2⟩ := dateOf_spec d2
  intro a1 b1 c1 a2 b2 c2 hp1 hp2
  rw [heq1] at hp1
  rw [heq2] at hp2
  simp only [Prod.mk.injEq] at hp1 hp2
  obtain ⟨ha1, hb1, hc1⟩ := hp1
  obtain ⟨ha2, hb2, hc2⟩ := hp2
  subst ha1; subst hb1; subst hc1; subst ha2; subst hb2; subst hc2
  have hera : e1 ≤ e2 := by omega
  by_cases he : e1 = e2
  · have hdoe12 : o1 < o2 := by omega
    have hyle : y1 ≤ y2 := by
      by_contra hc
      push_neg at hc
      have hd := dysT_mono (show y2 + 1 ≤ y1 by omega)
      omega
    by_cases hye : y1 = y2
    · have hdys : dysT y1 = dysT y2 := by rw [hye]
      have hdoy12 : g1 < g2 := by omega
      have hple : p1 ≤ p2 := by
        by_contra hc
        push_neg at hc
        have hd := monthStart_mono (show p2 + 1 ≤ p1 by omega)
        omega
      by_cases hpe : p1 = p2
      · have hms : monthStart p1 = monthStart p2 := by rw [hpe]
        rw [he, hye, hpe]
        right
        exact ⟨rfl, Or.inr ⟨rfl, by omega⟩⟩
      · have hplt : p1 < p2 := by omega
        by_cases hx1 : p1 < 10 <;> by_cases hx2 : p2 < 10 <;>
          simp [hx1, hx2] <;> omega
    · have hylt : y1 < y2 := by omega
      by_cases hx1 : p1 < 10 <;> by_cases hx2 : p2 < 10 <;>
        simp [hx1, hx2] <;> omega
  · have helt : e1 < e2 := by omega
    by_cases hx1 : p1 < 10 <;> by_cases hx2 : p2 < 10 <;>
      simp [hx1, hx2] <;> omega


/-- Split `t` (epoch ms) into the seven ISO fields
`(year, month, day, hour, minute, second, millisecond)`. -/
def fieldsOf (t : Int) : Int × Int × Int × Int × Int × Int × Int :=
  let days := t / 86400000
  let msod := t - days * 86400000
  let ymd := dateOf days
  (ymd.1, ymd.2.1, ymd.2.2,
   msod / 3600000, msod % 3600000 / 60000, msod % 60000 / 1000, msod % 1000)

theorem fieldsOf_spec (t : Int) :
    ∀ {y m d hh mi ss ms : Int}, fieldsOf t = (y, m, d, hh, mi, ss, ms) →
      (y, m, d) = dateOf (t / 86400000) ∧
      1 ≤ m ∧ m ≤ 12 ∧ 1 ≤ d ∧ d ≤ 31 ∧
      0 ≤ hh ∧ hh ≤ 23 ∧ 0 ≤ mi ∧ mi ≤ 59 ∧ 0 ≤ ss ∧ ss ≤ 59 ∧
      0 ≤ ms ∧ ms ≤ 999 ∧
      t = (t / 86400000) * 86400000 + (hh * 3600000 + mi * 60000 + ss * 1000 + ms) := by
  intro y m d hh mi ss ms hf
  obtain ⟨e1, o1, y1, g1, p1, q1, o1a, o1b, y1a, y1b, y1c, y1d, g1e, g1a, g1b,
    p1a, p1b, p1c, p1d, heq1⟩ := dateOf_spec (t / 86400000)
  simp only [fieldsOf] at hf
  rw [heq1] at hf
  simp only [Prod.mk.injEq] at hf
  obtain ⟨h1, h2, h3, h4, h5, h6, h7⟩ := hf
  subst h1; subst h2; subst h3; subst h4; subst h5; subst h6; subst h7
  have hg := monthStart_gap p1
  refine ⟨by rw [heq1], by omega, by omega, by omega, by omega,
    by omega, by omega, by omega, by omega, by omega, by omega,
    by omega, by omega, by omega⟩

theorem fieldsOf_mono {t1 t2 : Int} (h : t1 < t2) :
    ∀ {y1 m1 d1 h1 i1 s1 x1 y2 m2 d2 h2 i2 s2 x2 : Int},
      fieldsOf t1 = (y1, m1, d1, h1, i1, s1, x1) →
      fieldsOf t2 = (y2, m2, d2, h2, i2, s2, x2) →
      y1 < y2 ∨ (y1 = y2 ∧ (m1 < m2 ∨ (m1 = m2 ∧ (d1 < d2 ∨ (d1 = d2 ∧
        (h1 < h2 ∨ (h1 = h2 ∧ (i1 < i2 ∨ (i1 = i2 ∧
        (s1 < s2 ∨ (s1 = s2 ∧ x1 < x2)))))))))))  := by
  intro y1 m1 d1 h1 i1 s1 x1 y2 m2 d2 h2 i2 s2 x2 hf1 hf2
  have hs1 := fieldsOf_spec t1 hf1
  have hs2 := fieldsOf_spec t2 hf2
  simp only [fieldsOf] at hf1 hf2
  simp only [Prod.mk.injEq] at hf1 hf2
  obtain ⟨e1, e2, e3, e4, e5, e6, e7⟩ := hf1
  obtain ⟨f1, f2, f3, f4, f5, f6, f7⟩ := hf2
  by_cases hd : t1 / 86400000 = t2 / 86400000
  · -- same day: date fields coincide, compare the time of day
    right
    have hy : y1 = y2 := by rw [← e1, ← f1, hd]
    have hm : m1 = m2 := by rw [← e2, ← f2, hd]
    have hdd : d1 = d2 := by rw [← e3, ← f3, hd]
    refine ⟨hy, Or.inr ⟨hm, Or.inr ⟨hdd, ?_⟩⟩⟩
    subst e4; subst e5; subst e6; subst e7
    subst f4; subst f5; subst f6; subst f7
    omega
  · have hdays : t1 / 86400000 < t2 / 86400000 := by omega
    have hdm := @dateOf_mono (t1 / 86400000) (t2 / 86400000) hdays
      y1 m1 d1 y2 m2 d2 ?_ ?_
    · tauto
    · rw [← e1, ← e2, ← e3]
    · rw [← f1, ← f2, ← f3]

/-- ECMAScript year rendering: `YYYY` for years 0–9999, expanded
`±YYYYYY` outside that range. -/
def yearField (y : Int) : List Char :=
  if 0 ≤ y ∧ y ≤ 9999 then padNat 4 y.toNat
  else if y < 0 then '-' :: padNat 6 (-y).toNat
  else '+' :: padNat 6 y.toNat

/-- ECMAScript `Date.prototype.toISOString` as a character list:
`YYYY-MM-DDTHH:mm:ss.sssZ` (UTC, proleptic Gregorian, expanded years). -/
def toIso (t : Int) : List Char :=
  match fieldsOf t with
  | (y, m, d, hh, mi, ss, ms) =>
      yearField y ++ '-' :: (padNat 2 m.toNat ++ '-' :: (padNat 2 d.toNat ++
      'T' :: (padNat 2 hh.toNat ++ ':' :: (padNat 2 mi.toNat ++
      ':' :: (padNat 2 ss.toNat ++ '.' :: (padNat 3 ms.toNat ++ ['Z']))))))

theorem toIso_epoch : toIso 0 = "1970-01-01T00:00:00.000Z".data := by decide
theorem toIso_neg : toIso (-1) = "1969-12-31T23:59:59.999Z".data := by decide
theorem toIso_y10000 : toIso 253402300800000 = "+010000-01-01T00:00:00.000Z".data := by
  decide

/-- Epoch-ms range whose years render in the plain `YYYY` (0000–9999) form. -/
def InIsoRange (t : Int) : Prop := -62167219200000 ≤ t ∧ t ≤ 253402300799999

theorem dateOf_year_le {d1 d2 : Int} (h : d1 ≤ d2) :
    (dateOf d1).1 ≤ (dateOf d2).1 := by
  rcases eq_or_lt_of_le h with he | hlt
  · rw [he]
  · have := @dateOf_mono d1 d2 hlt (dateOf d1).1 (dateOf d1).2.1
      (dateOf d1).2.2 (dateOf d2).1 (dateOf d2).2.1
      (dateOf d2).2.2 rfl rfl
    rcases this with h1 | ⟨h1, _⟩
    · omega
    · omega

theorem year_range {t : Int} (h : InIsoRange t) :
    0 ≤ (dateOf (t / 86400000)).1 ∧ (dateOf (t / 86400000)).1 ≤ 9999 := by
  obtain ⟨hlo, hhi⟩ := h
  have hdlo : -719528 ≤ t / 86400000 := by omega
  have hdhi : t / 86400000 ≤ 2932896 := by omega
  have h1 := dateOf_year_le hdlo
  have h2 := dateOf_year_le hdhi
  have ha : (dateOf (-719528)).1 = 0 := by decide
  have hb : (dateOf 2932896).1 = 9999 := by decide
  omega

/-- Comparison of one fixed-width field followed by a common separator. -/
theorem lexLt_field (w n1 n2 : Nat) (h1 : n1 < 10 ^ w) (h2 : n2 < 10 ^ w)
    (c : Char) (r1 r2 : List Char) :
    lexLt (padNat w n1 ++ c :: r1) (padNat w n2 ++ c :: r2) =
      (if n1 = n2 then lexLt r1 r2 else decide (n1 < n2)) := by
  rw [lexLt_append _ _ _ _ (by simp [padNat_length])]
  by_cases he : n1 = n2
  · subst he
    simp [lexLt_cons_same]
  · have hp : padNat w n1 ≠ padNat w n2 := fun hh => he (padNat_inj w _ _ h1 h2 hh)
    rw [if_neg hp, if_neg he]
    by_cases hlt : n1 < n2
    · simp [hlt, (padNat_lt_iff w _ _ h1 h2).mpr hlt]
    · have hf : lexLt (padNat w n1) (padNat w n2) = false := by
        rcases hb : lexLt (padNat w n1) (padNat w n2) with _ | _
        · rfl
        · exact absurd ((padNat_lt_iff w _ _ h1 h2).mp hb) hlt
      simp [hlt, hf]

theorem toIso_lt {t1 t2 : Int} (hr1 : InIsoRange t1) (hr2 : InIsoRange t2)
    (h : t1 < t2) : lexLt (toIso t1) (toIso t2) = true := by
  rcases hf1 : fieldsOf t1 with ⟨y1, m1, d1, h1, i1, s1, x1⟩
  rcases hf2 : fieldsOf t2 with ⟨y2, m2, d2, h2, i2, s2, x2⟩
  have hs1 := fieldsOf_spec t1 hf1
  have hs2 := fieldsOf_spec t2 hf2
  have hy1 : 0 ≤ y1 ∧ y1 ≤ 9999 := by
    have := year_range hr1
    have hx := congrArg Prod.fst hs1.1
    simp at hx
    omega
  have hy2 : 0 ≤ y2 ∧ y2 ≤ 9999 := by
    have := year_range hr2
    have hx := congrArg Prod.fst hs2.1
    simp at hx
    omega
  have hlex := fieldsOf_mono h hf1 hf2
  simp only [toIso, hf1, hf2]
  have hyf1 : yearField y1 = padNat 4 y1.toNat := by simp [yearField, hy1.1, hy1.2]
  have hyf2 : yearField y2 = padNat 4 y2.toNat := by simp [yearField, hy2.1, hy2.2]
  rw [hyf1, hyf2]
  rw [lexLt_field 4 y1.toNat y2.toNat (by omega) (by omega)]
  rw [lexLt_field 2 m1.toNat m2.toNat (by omega) (by omega)]
  rw [lexLt_field 2 d1.toNat d2.toNat (by omega) (by omega)]
  rw [lexLt_field 2 h1.toNat h2.toNat (by omega) (by omega)]
  rw [lexLt_field 2 i1.toNat i2.toNat (by omega) (by omega)]
  rw [lexLt_field 2 s1.toNat s2.toNat (by omega) (by omega)]
  rw [lexLt_field 3 x1.toNat x2.toNat (by omega) (by omega)]
  rcases hlex with hc | ⟨hc, hrest⟩
  · have : ¬ (y1.toNat = y2.toNat) := by omega
    simp [this]
    omega
  · have hyn : y1.toNat = y2.toNat := by omega
    rw [if_pos hyn]
    rcases hrest with hc2 | ⟨hc2, hrest⟩
    · have : ¬ (m1.toNat = m2.toNat) := by omega
      simp [this]
      omega
    · have hmn : m1.toNat = m2.toNat := by omega
      rw [if_pos hmn]
      rcases hrest with hc3 | ⟨hc3, hrest⟩
      · have : ¬ (d1.toNat = d2.toNat) := by omega
        simp [this]
        omega
      · have hdn : d1.toNat = d2.toNat := by omega
        rw [if_pos hdn]
        rcases hrest with hc4 | ⟨hc4, hrest⟩
        · have : ¬ (h1.toNat = h2.toNat) := by omega
          simp [this]
          omega
        · have hhn : h1.toNat = h2.toNat := by omega
          rw [if_pos hhn]
          rcases hrest with hc5 | ⟨hc5, hrest⟩
          · have : ¬ (i1.toNat = i2.toNat) := by omega
            simp [this]
            omega
          · have hin : i1.toNat = i2.toNat := by omega
            rw [if_pos hin]
            rcases hrest with hc6 | ⟨hc6, hc7⟩
            · have : ¬ (s1.toNat = s2.toNat) := by omega
              simp [this]
              omega
            · have hsn : s1.toNat = s2.toNat := by omega
              rw [if_pos hsn]
              have : ¬ (x1.toNat = x2.toNat) := by omega
              simp [this]
              omega

theorem toIso_lt_iff {t1 t2 : Int} (hr1 : InIsoRange t1) (hr2 : InIsoRange t2) :
    lexLt (toIso t1) (toIso t2) = true ↔ t1 < t2 := by
  constructor
  · intro hlt
    by_contra hc
    push_neg at hc
    rcases eq_or_lt_of_le hc with he | hlt2
    · rw [he] at hlt
      rw [lexLt_irrefl] at hlt
      exact absurd hlt (by simp)
    · have h2 := toIso_lt hr2 hr1 hlt2
      have h3 := lexLt_asymm _ _ h2
      rw [h3] at hlt
      exact absurd hlt (by simp)
  · exact toIso_lt hr1 hr2

-- ---------------------------------------------------------------------------
-- Variant 2: registry with capacity eviction (`server.js` lines 429–494)
-- ---------------------------------------------------------------------------

/-- Variant-2 record (`server.js` line 430: `{ status, updatedAt }`). -/
structure Rec2 where
  status : String
  updatedAt : Int
  deriving DecidableEq, Repr

/-- Variant-2 registry: association list in insertion order. -/
abbrev Registry2 := List (String × Rec2)

/-- Key lookup in the variant-2 registry. -/
def lookup2 (d : String) : Registry2 → Option Rec2
  | [] => none
  | (n, r) :: rest => if n = d then some r else lookup2 d rest

/-- `deviceStatus[device] = { status, updatedAt }` (lines 476–479): a JS
assignment replaces the record in place for a known key and appends a new key
at the end of the enumeration order. -/
def setEntry (d s : String) (t : Int) : Registry2 → Registry2
  | [] => [(d, ⟨s, t⟩)]
  | (n, r) :: rest =>
      if n = d then (n, ⟨s, t⟩) :: rest else (n, r) :: setEntry d s t rest

/-- Lexicographically smallest stored `updatedAt` ISO string: the sorted
`names[0]` of lines 484-486 (the comparator compares the ISO strings with
JS `<`; it never returns 0, so ties are broken arbitrarily there and by
first position here). -/
def minIsoKey : Registry2 → List Char
  | [] => []
  | [e] => toIso e.2.updatedAt
  | e :: rest =>
      let m := minIsoKey rest
      if lexLt m (toIso e.2.updatedAt) then m else toIso e.2.updatedAt

/-- Remove the first entry whose `updatedAt` renders to the ISO string `m`
(the `delete deviceStatus[names[0]]` of line 486). -/
def dropMinIso (m : List Char) : Registry2 → Registry2
  | [] => []
  | e :: rest => if toIso e.2.updatedAt = m then rest else e :: dropMinIso m rest

/-- Lines 481-487: when the map exceeds `MAX_DEVICES`, sort the names by the
stored `updatedAt` ISO strings and delete the first. -/
def evictIfOver (maxDevices : Nat) (reg : Registry2) : Registry2 :=
  if reg.length > maxDevices then dropMinIso (minIsoKey reg) reg else reg

/-- Variant-2 ingest of a parsed `(device, status, ts)` event
(lines 475-494): store the record, then enforce the capacity bound. -/
def ingest2 (maxDevices : Nat) (d s : String) (t : Int) (reg : Registry2) : Registry2 :=
  evictIfOver maxDevices (setEntry d s t reg)

/-- A sequence of variant-2 ingest events applied in order. -/
def runIngest2 (maxDevices : Nat) (events : List (String × String × Int))
    (reg : Registry2) : Registry2 :=
  events.foldl (fun r e => ingest2 maxDevices e.1 e.2.1 e.2.2 r) reg

theorem minIsoKey_le : ∀ (reg : Registry2), ∀ e ∈ reg,
    lexLt (toIso e.2.updatedAt) (minIsoKey reg) = false := by
  intro reg
  induction reg with
  | nil => intro e he; simp at he
  | cons f rest ih =>
      cases rest with
      | nil =>
          intro e he
          simp at he
          subst he
          simp [minIsoKey, lexLt_irrefl]
      | cons g rest2 =>
          intro e he
          simp only [minIsoKey]
          rcases List.mem_cons.mp he with he | he
          · subst he
            by_cases hc : lexLt (minIsoKey (g :: rest2)) (toIso e.2.updatedAt) = true
            · simp [hc]
              exact lexLt_asymm _ _ hc
            · simp at hc
              simp [hc, lexLt_irrefl]
          · have hle := ih e he
            by_cases hc : lexLt (minIsoKey (g :: rest2)) (toIso f.2.updatedAt) = true
            · simp [hc]
              exact hle
            · simp at hc
              simp [hc]
              rcases hb : lexLt (toIso e.2.updatedAt) (toIso f.2.updatedAt) with _ | _
              · rfl
              · exfalso
                rcases hmk : lexLt (minIsoKey (g :: rest2)) (toIso e.2.updatedAt) with _ | _
                · have heq := lexLt_connex _ _ hle hmk
                  rw [← heq] at hc
                  rw [hb] at hc
                  simp at hc
                · have := lexLt_trans _ _ _ hmk hb
                  rw [this] at hc
                  simp at hc

theorem minIsoKey_attained : ∀ (reg : Registry2), reg ≠ [] →
    ∃ e ∈ reg, toIso e.2.updatedAt = minIsoKey reg := by
  intro reg
  induction reg with
  | nil => intro h; exact absurd rfl h
  | cons f rest ih =>
      intro _
      cases rest with
      | nil => exact ⟨f, List.mem_cons_self _ _, rfl⟩
      | cons g rest2 =>
          simp only [minIsoKey]
          by_cases hc : lexLt (minIsoKey (g :: rest2)) (toIso f.2.updatedAt) = true
          · obtain ⟨e, he, heq⟩ := ih (by simp)
            refine ⟨e, List.mem_cons_of_mem _ he, ?_⟩
            simp [hc]
            exact heq
          · simp at hc
            refine ⟨f, List.mem_cons_self _ _, ?_⟩
            simp [hc]

theorem dropMinIso_decomp : ∀ (reg : Registry2) (m : List Char),
    (∃ e ∈ reg, toIso e.2.updatedAt = m) →
    ∃ pre post e, reg = pre ++ e :: post ∧ dropMinIso m reg = pre ++ post ∧
      toIso e.2.updatedAt = m := by
  intro reg
  induction reg with
  | nil => intro m h; simp at h
  | cons f rest ih =>
      intro m h
      by_cases hf : toIso f.2.updatedAt = m
      · exact ⟨[], rest, f, rfl, by simp [dropMinIso, hf], hf⟩
      · have hrest : ∃ e ∈ rest, toIso e.2.updatedAt = m := by
          obtain ⟨e, he, heq⟩ := h
          rcases List.mem_cons.mp he with he | he
          · subst he; exact absurd heq hf
          · exact ⟨e, he, heq⟩
        obtain ⟨pre, post, e, hdec, hdrop, heq⟩ := ih m hrest
        exact ⟨f :: pre, post, e, by simp [hdec], by simp [dropMinIso, hf, hdrop], heq⟩

theorem setEntry_length_le (d s : String) (t : Int) :
    ∀ reg : Registry2, (setEntry d s t reg).length ≤ reg.length + 1 := by
  intro reg
  induction reg with
  | nil => simp [setEntry]
  | cons p rest ih =>
      obtain ⟨n, r⟩ := p
      by_cases hn : n = d <;> (simp [setEntry, hn]; try omega)

theorem setEntry_length_new (d s : String) (t : Int) {reg : Registry2}
    (h : lookup2 d reg = none) :
    (setEntry d s t reg).length = reg.length + 1 := by
  induction reg with
  | nil => rfl
  | cons p rest ih =>
      obtain ⟨n, r⟩ := p
      by_cases hn : n = d
      · simp [lookup2, hn] at h
      · simp only [lookup2, if_neg hn] at h
        simp [setEntry, hn, ih h]

theorem ingest2_length_le (maxDevices : Nat) (d s : String) (t : Int)
    {reg : Registry2} (h : reg.length ≤ maxDevices) :
    (ingest2 maxDevices d s t reg).length ≤ maxDevices := by
  unfold ingest2 evictIfOver
  by_cases ho : (setEntry d s t reg).length > maxDevices
  · rw [if_pos ho]
    have hne : setEntry d s t reg ≠ [] := by
      intro hnil
      rw [hnil] at ho
      simp at ho
    obtain ⟨pre, post, e, hdec, hdrop, _⟩ :=
      dropMinIso_decomp _ _ (minIsoKey_attained _ hne)
    rw [hdrop]
    have h1 := setEntry_length_le d s t reg
    have h2 : (setEntry d s t reg).length = pre.length + post.length + 1 := by
      rw [hdec]; simp; omega
    have h3 : (pre ++ post).length = pre.length + post.length := by simp
    omega
  · rw [if_neg ho]
    omega

theorem runIngest2_length_le (maxDevices : Nat)
    (events : List (String × String × Int)) :
    ∀ {reg : Registry2}, reg.length ≤ maxDevices →
      (runIngest2 maxDevices events reg).length ≤ maxDevices := by
  induction events with
  | nil => intro reg h; exact h
  | cons e rest ih =>
      intro reg h
      have hstep := ingest2_length_le maxDevices e.1 e.2.1 e.2.2 h
      have hrun : runIngest2 maxDevices (e :: rest) reg =
          runIngest2 maxDevices rest (ingest2 maxDevices e.1 e.2.1 e.2.2 reg) := by
        simp [runIngest2]
      rw [hrun]
      exact ih hstep

-- ---------------------------------------------------------------------------
-- Claim C7
-- ---------------------------------------------------------------------------

/-- Counterexample to C7 as stated: with A stored at `updatedAt = 0`
(rendered `"1970-01-01..."`) and B at `updatedAt = 253402300800000`
(year 10000, rendered `"+010000-01-01..."`), inserting C over the limit
evicts B, whose `updatedAt` is the largest in the registry, not the
smallest: the expanded-year string sorts lexicographically before every
plain four-digit-year string. -/
theorem eviction_c7_counterexample :
    ingest2 2 "C" "on" 1000
        [("A", ⟨"on", 0⟩), ("B", ⟨"on", 253402300800000⟩)] =
      [("A", ⟨"on", 0⟩), ("C", ⟨"on", 1000⟩)] ∧
    (0 : Int) < 253402300800000 ∧ (1000 : Int) < 253402300800000 := by
  refine ⟨by decide, by decide, by decide⟩

/-- Claim C7 (amended): the variant-2 registry never exceeds the maximum
device count, and an insert over the limit removes exactly one entry, one
whose stored `updatedAt` ISO-8601 string is lexicographically smallest (the
sorted `names[0]` the source deletes).  For timestamps whose years lie in
0000-9999 the lexicographic order coincides with the numeric order, so there
the evicted entry is one with the oldest `updatedAt`, and the scenario
holds: with `maxDevices = 2` and three distinct first-time devices A, B, C
inserted in order (in-range timestamps increasing towards C, `tA ≠ tB`),
exactly the older of A and B is evicted.  Outside that range the two orders
disagree and the code can evict the numerically newest record, as the
counterexample shows. -/
theorem eviction_c7 :
    (∀ (maxDevices : Nat) (events : List (String × String × Int)),
        (runIngest2 maxDevices events []).length ≤ maxDevices) ∧
    (∀ (maxDevices : Nat) (d s : String) (t : Int) (reg : Registry2),
        lookup2 d reg = none → reg.length = maxDevices →
        ∃ pre post e, setEntry d s t reg = pre ++ e :: post ∧
          ingest2 maxDevices d s t reg = pre ++ post ∧
          (∀ f ∈ setEntry d s t reg,
            lexLt (toIso f.2.updatedAt) (toIso e.2.updatedAt) = false)) ∧
    (∀ t1 t2 : Int, InIsoRange t1 → InIsoRange t2 →
        (lexLt (toIso t1) (toIso t2) = true ↔ t1 < t2)) ∧
    (∀ (sA sB sC : String) (tA tB tC : Int),
        InIsoRange tA → InIsoRange tB → InIsoRange tC →
        tA ≠ tB → tA < tC → tB < tC →
        runIngest2 2 [("A", sA, tA), ("B", sB, tB), ("C", sC, tC)] [] =
          if tA < tB then [("B", ⟨sB, tB⟩), ("C", ⟨sC, tC⟩)]
          else [("A", ⟨sA, tA⟩), ("C", ⟨sC, tC⟩)]) := by
  refine ⟨?_, ?_, ?_, ?_⟩
  · intro maxDevices events
    exact runIngest2_length_le maxDevices events (Nat.zero_le _)
  · intro maxDevices d s t reg hnew hlen
    have hL : (setEntry d s t reg).length = maxDevices + 1 := by
      rw [setEntry_length_new d s t hnew, hlen]
    have hne : setEntry d s t reg ≠ [] := by
      intro hnil
      rw [hnil] at hL
      simp at hL
    obtain ⟨pre, post, e, hdec, hdrop, heq⟩ :=
      dropMinIso_decomp _ _ (minIsoKey_attained _ hne)
    refine ⟨pre, post, e, hdec, ?_, ?_⟩
    · unfold ingest2 evictIfOver
      rw [if_pos (by omega), hdrop]
    · intro f hf
      rw [heq]
      exact minIsoKey_le _ f hf
  · intro t1 t2 h1 h2
    exact toIso_lt_iff h1 h2
  · intro sA sB sC tA tB tC hA hB hC hAB hAC hBC
    have hrun : runIngest2 2 [("A", sA, tA), ("B", sB, tB), ("C", sC, tC)] [] =
        ingest2 2 "C" sC tC (ingest2 2 "B" sB tB (ingest2 2 "A" sA tA [])) := by
      simp [runIngest2]
    rw [hrun]
    have e1 : ingest2 2 "A" sA tA [] = [("A", ⟨sA, tA⟩)] := rfl
    have e2 : ingest2 2 "B" sB tB [("A", ⟨sA, tA⟩)] =
        [("A", ⟨sA, tA⟩), ("B", ⟨sB, tB⟩)] := rfl
    rw [e1, e2]
    have hCB : lexLt (toIso tC) (toIso tB) = false := by
      rcases hb : lexLt (toIso tC) (toIso tB) with _ | _
      · rfl
      · exact absurd ((toIso_lt_iff hC hB).mp hb) (by omega)
    have hing : ingest2 2 "C" sC tC [("A", ⟨sA, tA⟩), ("B", ⟨sB, tB⟩)] =
        dropMinIso (minIsoKey [("A", ⟨sA, tA⟩), ("B", ⟨sB, tB⟩), ("C", ⟨sC, tC⟩)])
          [("A", ⟨sA, tA⟩), ("B", ⟨sB, tB⟩), ("C", ⟨sC, tC⟩)] := by
      show evictIfOver 2 [("A", ⟨sA, tA⟩), ("B", ⟨sB, tB⟩), ("C", ⟨sC, tC⟩)] = _
      unfold evictIfOver
      rw [if_pos (by norm_num)]
    rw [hing]
    by_cases hlt : tA < tB
    · have hBA : lexLt (toIso tB) (toIso tA) = false := by
        rcases hb : lexLt (toIso tB) (toIso tA) with _ | _
        · rfl
        · exact absurd ((toIso_lt_iff hB hA).mp hb) (by omega)
      have hmin : minIsoKey [("A", ⟨sA, tA⟩), ("B", ⟨sB, tB⟩), ("C", ⟨sC, tC⟩)] =
          toIso tA := by
        simp [minIsoKey, hCB, hBA]
      rw [hmin, if_pos hlt]
      simp [dropMinIso]
    · have hBAt : lexLt (toIso tB) (toIso tA) = true := by
        rcases hb : lexLt (toIso tB) (toIso tA) with _ | _
        · exfalso
          have hBAlt : tB < tA := by omega
          have := (toIso_lt_iff hB hA).mpr hBAlt
          rw [hb] at this
          exact absurd this (by simp)
        · rfl
      have hne : ¬ (toIso tA = toIso tB) := by
        intro hh
        rw [hh] at hBAt
        rw [lexLt_irrefl] at hBAt
        exact absurd hBAt (by simp)
      have hmin : minIsoKey [("A", ⟨sA, tA⟩), ("B", ⟨sB, tB⟩), ("C", ⟨sC, tC⟩)] =
          toIso tB := by
        simp [minIsoKey, hCB, hBAt]
      rw [hmin, if_neg hlt]
      simp [dropMinIso, hne]

/-- Witness for C7 (amended): inserting A, B, C with timestamps 1, 2, 3 into
an empty registry with `maxDevices = 2` evicts A; the ISO order agrees with
the numeric order at 1 < 2; the over-limit insert of C removes exactly one
lexicographically minimal entry. -/
theorem eviction_c7_witness :
    runIngest2 2 [("A", "on", 1), ("B", "on", 2), ("C", "on", 3)] [] =
      [("B", ⟨"on", 2⟩), ("C", ⟨"on", 3⟩)] ∧
    lexLt (toIso 1) (toIso 2) = true ∧
    (∃ pre post e,
      setEntry "C" "on" 3 [("A", ⟨"on", 1⟩), ("B", ⟨"on", 2⟩)] = pre ++ e :: post ∧
      ingest2 2 "C" "on" 3 [("A", ⟨"on", 1⟩), ("B", ⟨"on", 2⟩)] = pre ++ post ∧
      (∀ f ∈ setEntry "C" "on" 3 [("A", ⟨"on", 1⟩), ("B", ⟨"on", 2⟩)],
        lexLt (toIso f.2.updatedAt) (toIso e.2.updatedAt) = false)) := by
  have hr1 : InIsoRange 1 := ⟨by norm_num, by norm_num⟩
  have hr2 : InIsoRange 2 := ⟨by norm_num, by norm_num⟩
  have hr3 : InIsoRange 3 := ⟨by norm_num, by norm_num⟩
  refine ⟨?_, ?_, ?_⟩
  · have h := eviction_c7.2.2.2 "on" "on" "on" 1 2 3 hr1 hr2 hr3 (by norm_num)
      (by norm_num) (by norm_num)
    simpa using h
  · exact (eviction_c7.2.2.1 1 2 hr1 hr2).mpr (by norm_num)
  · exact eviction_c7.2.1 2 "C" "on" 3 [("A", ⟨"on", 1⟩), ("B", ⟨"on", 2⟩)]
      (by decide) (by decide)

-- ---------------------------------------------------------------------------
-- JS string helpers (structural versions over the character list; the
-- standard String library functions do not reduce in the kernel)
-- ---------------------------------------------------------------------------

/-- Whitespace test for `String.prototype.trim` (the ASCII whitespace actually
occurring in protocol payloads). -/
def isWsChar (c : Char) : Bool := c = ' ' ∨ c = '\t' ∨ c = '\n' ∨ c = '\r'

/-- Drop leading whitespace characters. -/
def dropWs : List Char → List Char
  | [] => []
  | c :: rest => if isWsChar c then dropWs rest else c :: rest

/-- `String.prototype.trim`: drop whitespace from both ends. -/
def jsTrim (s : String) : String := ⟨(dropWs ((dropWs s.data).reverse)).reverse⟩

/-- `String.prototype.toLowerCase` on the ASCII payload alphabet. -/
def jsLower (s : String) : String := ⟨s.data.map Char.toLower⟩

/-- `payloadStr.split(/[,:]/)`: split on every comma or colon, keeping empty
pieces; the empty string yields one empty piece, like the JS split. -/
def splitSep : List Char → List (List Char)
  | [] => [[]]
  | c :: rest =>
      if c = ',' ∨ c = ':' then [] :: splitSep rest
      else
        match splitSep rest with
        | [] => [[c]]
        | g :: gs => (c :: g) :: gs

/-- The plain-text fallback parse (`server.js` lines 77–81) combined with the
`device && status` truthiness gate of line 84: split on every comma/colon,
trim all parts, take the first two as device and status, succeed when both
are non-empty. -/
def fallbackParse (payload : String) : Option (String × String) :=
  match (splitSep payload.data).map (fun l => jsTrim ⟨l⟩) with
  | p0 :: p1 :: _ => if p0 ≠ "" ∧ p1 ≠ "" then some (p0, p1) else none
  | _ => none

theorem splitSep_ne_nil : ∀ l : List Char, splitSep l ≠ [] := by
  intro l
  induction l with
  | nil => simp [splitSep]
  | cons c rest ih =>
      by_cases hc : c = ',' ∨ c = ':'
      · simp [splitSep, hc]
      · simp only [splitSep, if_neg hc]
        cases h : splitSep rest <;> simp

theorem splitSep_append_sep (c : Char) (hc : c = ',' ∨ c = ':') :
    ∀ (a b : List Char), (∀ x ∈ a, ¬(x = ',' ∨ x = ':')) →
      splitSep (a ++ c :: b) = a :: splitSep b := by
  intro a
  induction a with
  | nil =>
      intro b _
      simp [splitSep, hc]
  | cons x a2 ih =>
      intro b ha
      have hx : ¬(x = ',' ∨ x = ':') := ha x (List.mem_cons_self _ _)
      have ha2 : ∀ y ∈ a2, ¬(y = ',' ∨ y = ':') :=
        fun y hy => ha y (List.mem_cons_of_mem _ hy)
      simp only [List.cons_append, splitSep, if_neg hx, List.append_eq, ih b ha2]

-- ---------------------------------------------------------------------------
-- Claim C4
-- ---------------------------------------------------------------------------

/-- Counterexample to C4 as stated: the fallback splits on every comma or
colon, not only the first, so `"Dev,on,extra"` yields status `"on"` (the
second field), not `"on,extra"` (the remainder after the first separator). -/
theorem fallback_parse_c4_counterexample :
    fallbackParse "Dev,on,extra" ≠ some ("Dev", "on,extra") ∧
    fallbackParse "Dev,on,extra" = some ("Dev", "on") := by
  constructor <;> decide

/-- Claim C4 (amended): the fallback splits the raw text on every comma and
colon, trims all fields, and takes the first two as device and status — for a
payload whose first separator is at the end of the separator-free prefix `a`,
the device is `trim a` and the status is the trim of the text between the
first and second separators (anything after a second separator is dropped);
it succeeds exactly when the split yields at least two fields whose first two
trims are non-empty, and fewer than two fields is a failure. -/
theorem fallback_parse_c4 :
    (∀ (a b : List Char) (c : Char), (c = ',' ∨ c = ':') →
        (∀ x ∈ a, ¬(x = ',' ∨ x = ':')) →
        fallbackParse ⟨a ++ c :: b⟩ =
          if jsTrim ⟨a⟩ ≠ "" ∧ jsTrim ⟨(splitSep b).headI⟩ ≠ "" then
            some (jsTrim ⟨a⟩, jsTrim ⟨(splitSep b).headI⟩)
          else none) ∧
    fallbackParse "Dev,on,extra" = some ("Dev", "on") ∧
    (∀ payload : String,
        ((splitSep payload.data).map (fun l => jsTrim ⟨l⟩)).length < 2 →
        fallbackParse payload = none) := by
  refine ⟨?_, by decide, ?_⟩
  · intro a b c hc ha
    have hsplit := splitSep_append_sep c hc a b ha
    unfold fallbackParse
    rw [show (⟨a ++ c :: b⟩ : String).data = a ++ c :: b from rfl, hsplit]
    cases hsb : splitSep b with
    | nil => exact absurd hsb (splitSep_ne_nil b)
    | cons g gs => rfl
  · intro payload hlen
    unfold fallbackParse
    cases hp : (splitSep payload.data).map (fun l => jsTrim ⟨l⟩) with
    | nil => rfl
    | cons p0 rest =>
        cases rest with
        | nil => rfl
        | cons p1 rest2 =>
            rw [hp] at hlen
            simp [List.length_cons] at hlen
            omega

/-- Witness for C4 (amended) at the concrete payload `"Dev,on,extra"` written
as prefix, first separator, and remainder. -/
theorem fallback_parse_c4_witness :
    fallbackParse ⟨"Dev".data ++ ',' :: "on,extra".data⟩ = some ("Dev", "on") := by
  have h := fallback_parse_c4.1 "Dev".data "on,extra".data ',' (Or.inl rfl) (by decide)
  rw [h]
  decide

-- ---------------------------------------------------------------------------
-- Claim C8
-- ---------------------------------------------------------------------------

/-- `POST /api/command` (`server.js` lines 156–179) for string-typed body
fields (non-string bodies go through the same `String(x || '')` coercion as
the ingest path; the specified contract takes strings).  The device is
trimmed; the status is trimmed and lowercased; the request is rejected with no
publish when the device or status is empty or the status is not `on`/`off`;
otherwise the published payload is `"<device>:<status>"`.  `some payload`
means the payload was published; `none` means nothing was published and the
registry is untouched (`dispatch` never receives the registry at all). -/
def dispatch (device desiredState : String) : Option String :=
  let d := jsTrim device
  let s := jsLower (jsTrim desiredState)
  if d = "" ∨ s = "" ∨ ¬(s = "on" ∨ s = "off") then none
  else some (d ++ ":" ++ s)

/-- Claim C8: `dispatch` succeeds exactly when the trimmed device is non-empty
and the status, lowercased after trimming, is `"on"` or `"off"`; on success
the payload is `"<device>:<lowercased status>"`, otherwise nothing is
published.  `dispatch "Lamp-1" "ON"` publishes `"Lamp-1:on"`;
`dispatch "" "on"` and `dispatch "Lamp-1" "toggle"` publish nothing. -/
theorem dispatch_c8 :
    (∀ device desiredState : String,
        dispatch device desiredState =
          if jsTrim device ≠ "" ∧
              (jsLower (jsTrim desiredState) = "on" ∨
               jsLower (jsTrim desiredState) = "off") then
            some (jsTrim device ++ ":" ++ jsLower (jsTrim desiredState))
          else none) ∧
    dispatch "Lamp-1" "ON" = some "Lamp-1:on" ∧
    dispatch "" "on" = none ∧
    dispatch "Lamp-1" "toggle" = none := by
  refine ⟨?_, by decide, by decide, by decide⟩
  intro device desiredState
  unfold dispatch
  by_cases h1 : jsTrim device = ""
  · simp [h1]
  · by_cases h2 : jsLower (jsTrim desiredState) = "on" ∨
        jsLower (jsTrim desiredState) = "off"
    · have hs : jsLower (jsTrim desiredState) ≠ "" := by
        rcases h2 with h | h <;> rw [h] <;> decide
      simp [h1, h2, hs]
    · simp [h1, h2]

-- ---------------------------------------------------------------------------
-- JSON payload model (`JSON.parse` output fragment)
-- ---------------------------------------------------------------------------

/-- The JSON values relevant to the status payloads.  Numbers are restricted
to integers and arrays are outside the modelled fragment (device payloads are
flat objects of primitives). -/
inductive JsonValue where
  | null
  | bool (b : Bool)
  | num (n : Int)
  | str (s : String)
  | obj (fields : List (String × JsonValue))

/-- Field lookup inside a JSON object literal (keys unique in `JSON.parse`
output). -/
def lookupField : List (String × JsonValue) → String → Option JsonValue
  | [], _ => none
  | (k2, v) :: rest, k => if k2 = k then some v else lookupField rest k

/-- JS property access `v.k`: `none` models `undefined` (missing field or
access on a non-object). -/
def getProp : JsonValue → String → Option JsonValue
  | .obj fields, k => lookupField fields k
  | _, _ => none

/-- JS truthiness of a possibly-undefined value. -/
def truthy : Option JsonValue → Bool
  | none => false
  | some .null => false
  | some (.bool b) => b
  | some (.num n) => n != 0
  | some (.str s) => s != ""
  | some (.obj _) => true

/-- `String(v)` on the modelled fragment. -/
def jsToString : JsonValue → String
  | .null => "null"
  | .bool b => if b then "true" else "false"
  | .num n => toString n
  | .str s => s
  | .obj _ => "[object Object]"

/-- The JS expression `x || ''`: keep a truthy value, replace a falsy or
undefined one by the empty string. -/
def orEmpty (f : Option JsonValue) : JsonValue :=
  match f with
  | some x => if truthy (some x) then x else .str ""
  | none => .str ""

/-- `String(obj.k || '').trim()` (`server.js` lines 72–73). -/
def coerceField (v : JsonValue) (k : String) : String :=
  jsTrim (jsToString (orEmpty (getProp v k)))

/-- The JSON-branch extraction of `device`/`status` (lines 72–73) combined
with the `device && status` truthiness gate of line 84. -/
def extractDeviceStatus (v : JsonValue) : Option (String × String) :=
  let d := coerceField v "device"
  let s := coerceField v "status"
  if d ≠ "" ∧ s ≠ "" then some (d, s) else none

-- ---------------------------------------------------------------------------
-- Claim C10
-- ---------------------------------------------------------------------------

/-- Counterexample to C10 as stated: `String(false)` is the non-empty string
`"false"`, yet the payload `{"device": false, "status": "on"}` is rejected,
because the code coerces with `String(obj.device || '')` — a falsy non-string
field becomes the empty string before conversion. -/
theorem json_coercion_c10_counterexample :
    jsTrim (jsToString (JsonValue.bool false)) = "false" ∧
    ("false" : String) ≠ "" ∧
    extractDeviceStatus
        (.obj [("device", .bool false), ("status", .str "on")]) = none := by
  refine ⟨by decide, by decide, by decide⟩

/-- Claim C10 (amended): a `device`/`status` field is first defaulted to `''`
when falsy (`null`, `false`, `0`, `""`, or absent) and only then
string-converted and trimmed; the event is accepted exactly when both results
are non-empty.  So truthy non-strings are coerced — `{"device": 42,
"status": true}` is ingested as device `"42"`, status `"true"` — while falsy
non-strings such as `false` make the field empty and the event is rejected. -/
theorem json_coercion_c10 :
    (∀ (v : JsonValue) (d s : String),
        extractDeviceStatus v = some (d, s) ↔
          (d = coerceField v "device" ∧ s = coerceField v "status" ∧
           d ≠ "" ∧ s ≠ "")) ∧
    extractDeviceStatus (.obj [("device", .num 42), ("status", .bool true)]) =
      some ("42", "true") ∧
    extractDeviceStatus (.obj [("device", .bool false), ("status", .str "on")]) =
      none := by
  refine ⟨?_, by decide, by decide⟩
  intro v d s
  constructor
  · intro he
    simp only [extractDeviceStatus] at he
    by_cases h : coerceField v "device" ≠ "" ∧ coerceField v "status" ≠ ""
    · rw [if_pos h] at he
      simp at he
      obtain ⟨h1, h2⟩ := he
      subst h1
      subst h2
      exact ⟨rfl, rfl, h.1, h.2⟩
    · rw [if_neg h] at he
      exact absurd he (by simp)
  · intro ⟨h1, h2, h3, h4⟩
    subst h1
    subst h2
    simp only [extractDeviceStatus]
    rw [if_pos ⟨h3, h4⟩]

-- ---------------------------------------------------------------------------
-- Claim C5
-- ---------------------------------------------------------------------------

/-- Accumulate the value of a non-empty all-digit string (`none` otherwise). -/
def digitsVal (l : List Char) : Option Nat :=
  if l = [] then none
  else
    l.foldl
      (fun acc c =>
        match acc with
        | none => none
        | some v => if c.isDigit then some (v * 10 + (c.toNat - 48)) else none)
      (some 0)

/-- `Number(<string>)` for optionally-signed decimal integer literals; every
other string is `NaN` (`none`).  Whitespace-padded, float, hex and exponent
syntaxes are outside the modelled payload fragment. -/
def parseNumber : List Char → Option Int
  | '-' :: rest => (digitsVal rest).map (fun n => -(n : Int))
  | l => (digitsVal l).map (fun n => (n : Int))

/-- `Number(v)` on the modelled fragment; `none` models `NaN`. -/
def jsToNumber : JsonValue → Option Int
  | .null => some 0
  | .bool b => some (if b then 1 else 0)
  | .num n => some n
  | .str s => parseNumber s.data
  | .obj _ => none

/-- `new Date(ms).toISOString()`: returns the in-range finite millisecond
value and throws `RangeError: Invalid time value` on `NaN` or an out-of-range
argument (|ms| > 8.64e15). -/
def toISOStringMs : Option Int → Except String Int
  | none => .error "RangeError: Invalid time value"
  | some v =>
      if v.natAbs ≤ 8640000000000000 then .ok v
      else .error "RangeError: Invalid time value"

/-- Line 85: `new Date(ts ? Number(ts) : Date.now()).toISOString()` with
`receivedAt` standing for `Date.now()`. -/
def computeNowMs (tsField : Option JsonValue) (receivedAt : Int) :
    Except String Int :=
  match tsField with
  | some t =>
      if truthy (some t) then toISOStringMs (jsToNumber t)
      else toISOStringMs (some receivedAt)
  | none => toISOStringMs (some receivedAt)

/-- The JSON branch of the `devices/status` publish handler (lines 67–98)
for one already-parsed payload over the variant-1 registry: a payload without
usable device/status is logged and dropped (`.ok`, registry unchanged); an
exception thrown by `toISOString` aborts the handler (`.error`). -/
def ingestStatusJson (v : JsonValue) (receivedAt : Int) (reg : Registry) :
    Except String Registry :=
  match extractDeviceStatus v with
  | none => .ok reg
  | some (d, s) =>
      match computeNowMs (getProp v "ts") receivedAt with
      | .ok t => .ok (update d s t reg)
      | .error e => .error e

/-- Claim C5 evaluated on the code: a valid numeric `ts` is stored, an absent
`ts` falls back to receive time, but a truthy non-numeric `ts` such as
`"garbage"` makes `new Date(NaN).toISOString()` throw a `RangeError`, so the
ingest path does *not* terminate normally — and a numeric `ts = 0` is falsy,
so the receive time is used instead of the event's valid timestamp. -/
theorem ingest_ts_c5 :
    ingestStatusJson
        (.obj [("device", .str "D1"), ("status", .str "on"),
               ("ts", .str "garbage")]) 1700000000000 [] =
      .error "RangeError: Invalid time value" ∧
    ingestStatusJson (.obj [("device", .str "D1"), ("status", .str "on")])
        1700000000000 [] =
      .ok (update "D1" "on" 1700000000000 []) ∧
    ingestStatusJson
        (.obj [("device", .str "D1"), ("status", .str "on"), ("ts", .num 123456)])
        1700000000000 [] =
      .ok (update "D1" "on" 123456 []) ∧
    ingestStatusJson
        (.obj [("device", .str "D1"), ("status", .str "on"), ("ts", .num 0)])
        1700000000000 [] =
      .ok (update "D1" "on" 1700000000000 []) :=
  ⟨rfl, rfl, rfl, rfl⟩
